import Mathlib

/-!
Verification of the Piper0 data-conversion utilities
(`data/RefractiveIndextoPiper0.py` and `data/mitsuba2toPiper0.py`).

Numbers are modelled as exact rationals (`ℚ`): the Python scripts use IEEE
doubles, but every quantity a claim mentions (the ×1000 micrometer→nanometer
scaling of short decimal literals, comparisons against 360 / 830 / 1e-3)
produces the same answer under exact rational arithmetic as under doubles for
the data formats involved, so `ℚ` is the faithful idealisation.

Strings are modelled as Lean `String`s; Python `str.find`, slicing,
`splitlines` (on `\n`-delimited text) and `float()` (on plain decimal
literals, the only form appearing in refractiveindex.info CSV exports and
mitsuba2 `.spd` tables) are embedded below.  All fallible operations return
`Option`; `none` stands for "the Python code raised an exception at this
point and the run aborted".
-/

namespace Piper0

/-- A spectral sample: `(wavelength in nanometers, index value)`.  In the
source a sample is the two-element list `[k*1e3, v]`. -/
abbrev Sample := ℚ × ℚ

/-! ## Embedding of the Python string primitives used by the scripts -/

/-- Index of the first occurrence of `pat` in `hay`, as a list of characters;
`none` models Python `str.find` returning `-1`. -/
def charFind : List Char → List Char → Option Nat
  | [], pat => if pat = [] then some 0 else none
  | hay@(_ :: rest), pat =>
      if pat.isPrefixOf hay then some 0 else (charFind rest pat).map (· + 1)

/-- Python `data.find(pat)`, with `none` for `-1`. -/
def strFind (s pat : String) : Option Nat := charFind s.toList pat.toList

/-- Python slice `s[a:b]` for non-negative `a`, `b` (both clamp to the
string length). -/
def strSlice (s : String) (a b : Nat) : String := ⟨(s.toList.take b).drop a⟩

/-- Python slice `s[a:]` for non-negative `a`. -/
def strSliceFrom (s : String) (a : Nat) : String := ⟨s.toList.drop a⟩

/-- Numeric value of a digit string (most significant digit first). -/
def digitsVal (cs : List Char) : Nat :=
  cs.foldl (fun a c => a * 10 + (c.toNat - 48)) 0

/-- Test that every character is a decimal digit. -/
def allDigits (cs : List Char) : Bool := cs.all (·.isDigit)

/-- Mantissa of a decimal literal: `digits`, `digits.digits`, `digits.` or
`.digits` (at least one digit overall). -/
def parseMantissa? (cs : List Char) : Option ℚ :=
  match cs.splitOn '.' with
  | [ip] =>
      if ip ≠ [] ∧ allDigits ip then some (digitsVal ip) else none
  | [ip, fp] =>
      if (ip ≠ [] ∨ fp ≠ []) ∧ allDigits ip ∧ allDigits fp then
        some ((digitsVal ip : ℚ) + (digitsVal fp : ℚ) / (10 : ℚ) ^ fp.length)
      else none
  | _ => none

/-- Strip an optional leading sign, returning the sign factor. -/
def stripSign : List Char → ℚ × List Char
  | '-' :: rest => (-1, rest)
  | '+' :: rest => (1, rest)
  | cs => (1, cs)

/-- Embedding of Python `float(s)` on the decimal forms occurring in the
data files: optional surrounding whitespace, optional sign, decimal mantissa,
optional `e`/`E` exponent.  (`inf`, `nan` and underscore separators never
occur in spectral tables and are not modelled.) -/
def parseFloat? (s : String) : Option ℚ :=
  let cs := (s.toList.dropWhile (·.isWhitespace)).reverse.dropWhile
      (·.isWhitespace) |>.reverse
  let (sign, cs) := stripSign cs
  match cs.splitOn 'e', cs.splitOn 'E' with
  | [m, ex], [_] =>
      match parseMantissa? m, stripSign ex with
      | some q, (esign, ed) =>
          if ed ≠ [] ∧ allDigits ed then
            some (sign * q * (if esign = 1 then (10 : ℚ) ^ digitsVal ed
                              else ((10 : ℚ) ^ digitsVal ed)⁻¹))
          else none
      | none, _ => none
  | [_], [m, ex] =>
      match parseMantissa? m, stripSign ex with
      | some q, (esign, ed) =>
          if ed ≠ [] ∧ allDigits ed then
            some (sign * q * (if esign = 1 then (10 : ℚ) ^ digitsVal ed
                              else ((10 : ℚ) ^ digitsVal ed)⁻¹))
          else none
      | none, _ => none
  | [m], [_] => (parseMantissa? m).map (sign * ·)
  | _, _ => none

/-! ## CSV pipeline (`RefractiveIndextoPiper0.py`) -/

/-- One CSV row: `k, v = list(map(float, line.split(",")))` followed by
`res.append([k*1e3, v])`.  `none` models the `ValueError` raised by `float`
on a malformed field or by unpacking a row that does not have exactly two
fields. -/
def parseLine? (line : String) : Option Sample :=
  match (line.splitOn ",").map parseFloat? with
  | [some k, some v] => some (k * 1000, v)
  | _ => none

/-- The non-empty lines of a section, in order: the `for line in
lines.splitlines()` loop skips lines with `len(line) == 0`.  (The data files
are `\n`-delimited, for which `splitlines` agrees with splitting on `\n`
once empty lines are discarded.) -/
def nonEmptyLines (s : String) : List String :=
  (s.splitOn "\n").filter (fun l => l.length ≠ 0)

/-- The parsed rows of a section; `none` if any non-empty line is
malformed. -/
def parseRows? (s : String) : Option (List Sample) :=
  (nonEmptyLines s).mapM parseLine?

/-- The loop `while len(res) >= 2 and res[1][0] < 360: res.pop(0)`. -/
def trimFront : List Sample → List Sample
  | a :: b :: rest => if b.1 < 360 then trimFront (b :: rest) else a :: b :: rest
  | l => l

/-- Helper for `trimBack`, acting on the reversed list: popping the last
element of `res` is popping the head of `res.reverse`, and `res[-2]` is the
second element of `res.reverse`. -/
def trimBackAux : List Sample → List Sample
  | a :: b :: rest => if 830 < b.1 then trimBackAux (b :: rest) else a :: b :: rest
  | l => l

/-- The loop `while len(res) >= 2 and res[-2][0] > 830: res.pop(-1)`. -/
def trimBack (l : List Sample) : List Sample := (trimBackAux l.reverse).reverse

/-- The range normalisation performed inside `parse`: the two `while` loops,
front trim first. -/
def rangeNormalize (l : List Sample) : List Sample := trimBack (trimFront l)

/-- The `parse` function of `RefractiveIndextoPiper0.py`: parse the
non-empty lines, run both trim loops, and raise (`none`) via
`raise "Invalid data"` if the result is empty. -/
def parse (s : String) : Option (List Sample) :=
  match parseRows? s with
  | none => none
  | some rows =>
      let res := rangeNormalize rows
      if res.length = 0 then none else some res

/-! Spec-worded restatement of the range normaliser (for comparison with the
source-derived `rangeNormalize`): "repeatedly discard the first sample while
the table has ≥2 samples AND the second sample's wavelength is still below
360 nm; repeatedly discard the last sample while the table has ≥2 samples
AND the second-to-last sample's wavelength is still above 830 nm". -/

/-- Spec wording: discard the first sample while the list has at least 2
samples and the second sample's wavelength is below 360. -/
def specDropFront (l : List Sample) : List Sample :=
  if h : 2 ≤ l.length ∧ (l.getD 1 (0, 0)).1 < 360 then specDropFront l.tail
  else l
termination_by l.length
decreasing_by
  cases l with
  | nil => simp at h
  | cons a rest => simp

/-- Spec wording: discard the last sample while the list has at least 2
samples and the second-to-last sample's wavelength is above 830. -/
def specDropBack (l : List Sample) : List Sample :=
  if h : 2 ≤ l.length ∧ 830 < (l.getD (l.length - 2) (0, 0)).1 then
    specDropBack l.dropLast
  else l
termination_by l.length
decreasing_by
  cases l with
  | nil => simp at h
  | cons a rest => simp

/-! ## The emitted JSON object -/

/-- Result of numpy's `.tolist()` on an array holding a spectral table:
a scalar, a flat list (1-D array) or a nested list (2-D array). -/
inductive NpList where
  | scalar (q : ℚ)
  | flat (qs : List ℚ)
  | nested (rows : List (List ℚ))
deriving DecidableEq, Repr

/-- One `{"Type": ..., "Array": ...}` JSON object; `typeTag` is the value of
the `"Type"` key and `arrayVal` the value of the `"Array"` key. -/
structure SpectrumEntry where
  typeTag : String
  arrayVal : NpList
deriving DecidableEq, Repr

/-- The JSON object written to `ior/<name>.json`: `eta` is the value of the
mandatory `"Eta"` key and `k` the value of the optional `"K"` key (`none` =
key absent).  Key order is fixed (`Eta` first) by dict insertion order. -/
structure IorJson where
  eta : SpectrumEntry
  k : Option SpectrumEntry
deriving DecidableEq, Repr

/-- Semantics of `np.array(res).tolist()` for `res` a list of two-element
rows, as built by `parse`: the nested shape is preserved. -/
def npTolist (rows : List Sample) : NpList :=
  .nested (rows.map fun s => [s.1, s.2])

/-- An entry `{"Type": "SampledSpectrumTexture", "Array": ...}` built from a
parsed table. -/
def sstEntry (rows : List Sample) : SpectrumEntry :=
  ⟨"SampledSpectrumTexture", npTolist rows⟩

/-- Start of the real-index section, `data.find("wl,n") + 4`.  When the
marker is absent Python's `find` returns `-1` and the script slices from
`-1 + 4 = 3` without complaint, which the `none` branch reproduces. -/
def nStartOf (data : String) : Nat :=
  match strFind data "wl,n" with
  | some i => i + 4
  | none => 3

/-- The per-material body of the CSV script's `__main__` loop: split the
file text into sections at the `wl,n`/`wl,k` markers, `parse` each section,
drop a negligible `K` table (`np.all(np.transpose(k)[1] < 1e-3)`, a signed
comparison), and build the JSON object (the `len(k) > 0` guard is kept even
though `parse` never returns an empty table).  `none` models an uncaught
exception aborting the run before any JSON is written. -/
def processCSV (data : String) : Option IorJson :=
  match strFind data "wl,k" with
  | some kp => do
      let eta ← parse (strSlice data (nStartOf data) kp)
      let k0 ← parse (strSliceFrom data (kp + 4))
      let k : Option (List Sample) :=
        if k0.all (fun s => s.2 < 1 / 1000) then none else some k0
      some ⟨sstEntry eta,
        match k with
        | some kt => if 0 < kt.length then some (sstEntry kt) else none
        | none => none⟩
  | none => do
      let eta ← parse (strSliceFrom data (nStartOf data))
      some ⟨sstEntry eta, none⟩

/-! ## Mitsuba2 pipeline (`mitsuba2toPiper0.py`) -/

/-- Whitespace-separated fields of a line, as split by `np.loadtxt`. -/
def splitWs (s : String) : List String :=
  (s.split (fun c => c.isWhitespace)).filter (fun t => t.length ≠ 0)

/-- The data lines `np.loadtxt` reads: each line is cut at a `#` comment,
stripped, and skipped when empty. -/
def loadtxtLines (s : String) : List String :=
  ((s.splitOn "\n").map
    (fun l => (⟨l.toList.takeWhile (· ≠ '#')⟩ : String).trim)).filter
    (fun l => l.length ≠ 0)

/-- The rectangular table of numbers `np.loadtxt` parses from the text;
`none` models the exception on a malformed field or on ragged rows. -/
def loadtxtRows? (content : String) : Option (List (List ℚ)) := do
  let rows ← (loadtxtLines content).mapM
    (fun l => (splitWs l).mapM parseFloat?)
  if rows.all (fun r => r.length = (rows.headD []).length) then some rows
  else none

/-- Semantics of `np.loadtxt(...).tolist()` with the default `ndmin=0`: axes of length 1
are squeezed, so a single-row file yields a flat list (and a single number
yields a bare scalar), while a genuinely 2-D table stays nested. -/
def loadtxtTolist (rows : List (List ℚ)) : NpList :=
  match rows with
  | [[x]] => .scalar x
  | [r] => .flat r
  | _ =>
      if rows.all (fun r => r.length = 1) then
        .flat (rows.map (fun r => r.headD 0))
      else .nested rows

/-- The per-material body of the Mitsuba2 script's loop: `np.loadtxt` both
`.spd` files and emit both tables unconditionally. -/
def processSpd (etaContent kContent : String) : Option IorJson := do
  let er ← loadtxtRows? etaContent
  let kr ← loadtxtRows? kContent
  some ⟨⟨"SampledSpectrumTexture", loadtxtTolist er⟩,
        some ⟨"SampledSpectrumTexture", loadtxtTolist kr⟩⟩

/-! ## Command-line entry behaviour -/

/-- Outcome of the argument check at the top of either script's `__main__`
block: `usageExit` is `print(msg)` followed by `exit(-1)` — the process
terminates before the directory walk, so no data file is read or written;
`run` proceeds to the conversion stage with the given root path. -/
inductive CLIOutcome where
  | usageExit (code : Int) (msg : String)
  | run (path : String)
deriving DecidableEq, Repr

/-- Argument handling of `RefractiveIndextoPiper0.py` (`argv` includes the
program name, so one positional argument means `len(sys.argv) == 2`). -/
def csvCliStart (argv : List String) : CLIOutcome :=
  if argv.length ≠ 2 then
    .usageExit (-1) "Please input the path to data files"
  else .run (argv.getD 1 "")

/-- Argument handling of `mitsuba2toPiper0.py`. -/
def spdCliStart (argv : List String) : CLIOutcome :=
  if argv.length ≠ 2 then
    .usageExit (-1) "Please input the root path to mitsuba2\x27s source"
  else .run ((argv.getD 1 "") ++ "/resources/data/ior")

/-- Every wavelength of the table lies in the visible band `[360, 830]`. -/
def inBand (l : List Sample) : Prop := ∀ s ∈ l, 360 ≤ s.1 ∧ s.1 ≤ 830

/-- The table is sorted by (weakly) ascending wavelength. -/
def sortedByWl (l : List Sample) : Prop :=
  l.Pairwise (fun a b => a.1 ≤ b.1)

instance (l : List Sample) : Decidable (inBand l) := by
  unfold inBand; infer_instance

instance (l : List Sample) : Decidable (sortedByWl l) := by
  unfold sortedByWl; infer_instance

/-! ## Basic lemmas about the trim loops -/

theorem trimFront_cons_cons (a b : Sample) (rest : List Sample) :
    trimFront (a :: b :: rest) =
      if b.1 < 360 then trimFront (b :: rest) else a :: b :: rest := rfl

theorem trimBackAux_cons_cons (a b : Sample) (rest : List Sample) :
    trimBackAux (a :: b :: rest) =
      if 830 < b.1 then trimBackAux (b :: rest) else a :: b :: rest := rfl

theorem trimFront_ne_nil : ∀ l : List Sample, l ≠ [] → trimFront l ≠ []
  | [], h => absurd rfl h
  | [a], _ => by simp [trimFront]
  | a :: b :: rest, _ => by
      rw [trimFront_cons_cons]
      by_cases hb : b.1 < 360
      · simpa [hb] using trimFront_ne_nil (b :: rest) (by simp)
      · simp [hb]

theorem trimBackAux_ne_nil : ∀ l : List Sample, l ≠ [] → trimBackAux l ≠ []
  | [], h => absurd rfl h
  | [a], _ => by simp [trimBackAux]
  | a :: b :: rest, _ => by
      rw [trimBackAux_cons_cons]
      by_cases hb : 830 < b.1
      · simpa [hb] using trimBackAux_ne_nil (b :: rest) (by simp)
      · simp [hb]

theorem trimFront_suffix : ∀ l : List Sample, ∃ u, l = u ++ trimFront l
  | [] => ⟨[], rfl⟩
  | [a] => ⟨[], rfl⟩
  | a :: b :: rest => by
      rw [trimFront_cons_cons]
      by_cases hb : b.1 < 360
      · obtain ⟨u, hu⟩ := trimFront_suffix (b :: rest)
        exact ⟨a :: u, by rw [if_pos hb]; simpa using hu⟩
      · exact ⟨[], by rw [if_neg hb]; simp⟩

theorem trimBackAux_suffix : ∀ l : List Sample, ∃ u, l = u ++ trimBackAux l
  | [] => ⟨[], rfl⟩
  | [a] => ⟨[], rfl⟩
  | a :: b :: rest => by
      rw [trimBackAux_cons_cons]
      by_cases hb : 830 < b.1
      · obtain ⟨u, hu⟩ := trimBackAux_suffix (b :: rest)
        exact ⟨a :: u, by rw [if_pos hb]; simpa using hu⟩
      · exact ⟨[], by rw [if_neg hb]; simp⟩

theorem trimFront_second :
    ∀ (l : List Sample) (a b : Sample) (rest : List Sample),
      trimFront l = a :: b :: rest → 360 ≤ b.1
  | [], _, _, _, h => by simp [trimFront] at h
  | [x], _, _, _, h => by simp [trimFront] at h
  | x :: y :: t, a, b, rest, h => by
      rw [trimFront_cons_cons] at h
      by_cases hy : y.1 < 360
      · rw [if_pos hy] at h
        exact trimFront_second (y :: t) a b rest h
      · rw [if_neg hy] at h
        cases h
        exact le_of_not_lt hy

theorem trimBackAux_second :
    ∀ (l : List Sample) (a b : Sample) (rest : List Sample),
      trimBackAux l = a :: b :: rest → b.1 ≤ 830
  | [], _, _, _, h => by simp [trimBackAux] at h
  | [x], _, _, _, h => by simp [trimBackAux] at h
  | x :: y :: t, a, b, rest, h => by
      rw [trimBackAux_cons_cons] at h
      by_cases hy : 830 < y.1
      · rw [if_pos hy] at h
        exact trimBackAux_second (y :: t) a b rest h
      · rw [if_neg hy] at h
        cases h
        exact le_of_not_lt hy

theorem trimBack_ne_nil (l : List Sample) (h : l ≠ []) : trimBack l ≠ [] := by
  unfold trimBack
  simp only [ne_eq, List.reverse_eq_nil_iff]
  exact trimBackAux_ne_nil l.reverse (by simpa using h)

theorem rangeNormalize_ne_nil (l : List Sample) (h : l ≠ []) :
    rangeNormalize l ≠ [] :=
  trimBack_ne_nil _ (trimFront_ne_nil l h)

theorem rangeNormalize_nil : rangeNormalize [] = [] := rfl

theorem trimBack_eq_take (l : List Sample) : ∃ u, l = trimBack l ++ u := by
  obtain ⟨u, hu⟩ := trimBackAux_suffix l.reverse
  refine ⟨u.reverse, ?_⟩
  have h := congrArg List.reverse hu
  simpa [trimBack] using h

theorem trimFront_sublist (l : List Sample) : List.Sublist (trimFront l) l := by
  obtain ⟨u, hu⟩ := trimFront_suffix l
  have h := List.sublist_append_right u (trimFront l)
  rwa [← hu] at h

theorem trimBack_sublist (l : List Sample) : List.Sublist (trimBack l) l := by
  obtain ⟨u, hu⟩ := trimBack_eq_take l
  have h := List.sublist_append_left (trimBack l) u
  rwa [← hu] at h

theorem rangeNormalize_sublist (l : List Sample) : List.Sublist (rangeNormalize l) l :=
  (trimBack_sublist (trimFront l)).trans (trimFront_sublist l)

/-! ## The spec-worded normaliser agrees with the source loops -/

theorem specDropFront_eq : ∀ l : List Sample, specDropFront l = trimFront l
  | [] => by rw [specDropFront]; simp [trimFront]
  | [a] => by rw [specDropFront]; simp [trimFront]
  | a :: b :: rest => by
      rw [specDropFront, trimFront_cons_cons]
      by_cases hb : b.1 < 360
      · rw [dif_pos ⟨by simp, by simpa using hb⟩, if_pos hb, List.tail_cons]
        exact specDropFront_eq (b :: rest)
      · rw [dif_neg (by simpa using hb), if_neg hb]

theorem reverse_getD_second (x y : Sample) (r : List Sample) :
    ((x :: y :: r).reverse.getD ((x :: y :: r).reverse.length - 2) (0, 0)) = y := by
  have hrev : (x :: y :: r).reverse = r.reverse ++ [y, x] := by simp
  rw [hrev]
  have hlen : (r.reverse ++ [y, x]).length - 2 = r.reverse.length := by
    simp
  rw [hlen, List.getD_eq_getElem?_getD,
    List.getElem?_append_right (Nat.le_refl _)]
  simp

theorem specDropBack_reverse : ∀ rl : List Sample,
    specDropBack rl.reverse = (trimBackAux rl).reverse
  | [] => by rw [specDropBack]; simp [trimBackAux]
  | [x] => by rw [specDropBack]; simp [trimBackAux]
  | x :: y :: r => by
      rw [specDropBack, trimBackAux_cons_cons]
      by_cases hy : 830 < y.1
      · rw [dif_pos ⟨by simp, by rw [reverse_getD_second]; exact hy⟩,
          if_pos hy]
        have hdrop : ((x :: y :: r).reverse).dropLast = (y :: r).reverse := by
          have : (x :: y :: r).reverse = (y :: r).reverse ++ [x] := by simp
          rw [this, List.dropLast_concat]
        rw [hdrop]
        exact specDropBack_reverse (y :: r)
      · rw [dif_neg
            (fun hc => hy (by rw [reverse_getD_second] at hc; exact hc.2)),
          if_neg hy]

theorem specDropBack_eq (l : List Sample) : specDropBack l = trimBack l := by
  have h := specDropBack_reverse l.reverse
  rwa [List.reverse_reverse] at h

/-! ## The normaliser on tables that are already in the visible band -/

theorem trimFront_id_of_lb (l : List Sample) (h : ∀ s ∈ l, 360 ≤ s.1) :
    trimFront l = l := by
  match l with
  | [] => rfl
  | [a] => rfl
  | a :: b :: rest =>
      rw [trimFront_cons_cons, if_neg (not_lt.mpr (h b (by simp)))]

theorem trimBackAux_id_of_ub (l : List Sample) (h : ∀ s ∈ l, s.1 ≤ 830) :
    trimBackAux l = l := by
  match l with
  | [] => rfl
  | [a] => rfl
  | a :: b :: rest =>
      rw [trimBackAux_cons_cons, if_neg (not_lt.mpr (h b (by simp)))]

theorem rangeNormalize_id_of_inBand (l : List Sample) (h : inBand l) :
    rangeNormalize l = l := by
  have h1 : trimFront l = l := trimFront_id_of_lb l (fun s hs => (h s hs).1)
  have h2 : trimBackAux l.reverse = l.reverse :=
    trimBackAux_id_of_ub l.reverse
      (fun s hs => (h s (List.mem_reverse.mp hs)).2)
  rw [rangeNormalize, h1, trimBack, h2, List.reverse_reverse]

/-! ## Auxiliary facts about `mapM` over `Option` -/

theorem mapM_some_length {α β : Type} (f : α → Option β) :
    ∀ (l : List α) (r : List β), l.mapM f = some r → r.length = l.length
  | [], r, h => by
      simp only [List.mapM_nil, pure, Option.some.injEq] at h
      simp [← h]
  | a :: t, r, h => by
      simp only [List.mapM_cons] at h
      cases hf : f a with
      | none => rw [hf] at h; simp at h
      | some b =>
          rw [hf] at h
          cases ht : t.mapM f with
          | none => rw [ht] at h; simp at h
          | some bs =>
              rw [ht] at h
              simp at h
              have := mapM_some_length f t bs ht
              subst h
              simp [this]

theorem parse_none_of_rows (s : String) (h : parseRows? s = none) :
    parse s = none := by
  unfold parse
  rw [h]

theorem parse_eq_of_rows (s : String) (rows : List Sample)
    (h : parseRows? s = some rows) :
    parse s = if (rangeNormalize rows).length = 0 then none
              else some (rangeNormalize rows) := by
  unfold parse
  rw [h]

theorem processCSV_eq_some_k (data : String) (kp : Nat)
    (hk : strFind data "wl,k" = some kp) :
    processCSV data =
      (do
        let eta ← parse (strSlice data (nStartOf data) kp)
        let k0 ← parse (strSliceFrom data (kp + 4))
        let k : Option (List Sample) :=
          if k0.all (fun s => s.2 < 1 / 1000) then none else some k0
        some ⟨sstEntry eta,
          match k with
          | some kt => if 0 < kt.length then some (sstEntry kt) else none
          | none => none⟩) := by
  unfold processCSV
  rw [hk]

theorem processCSV_eq_no_k (data : String)
    (hk : strFind data "wl,k" = none) :
    processCSV data =
      (do
        let eta ← parse (strSliceFrom data (nStartOf data))
        some ⟨sstEntry eta, none⟩) := by
  unfold processCSV
  rw [hk]

theorem parse_some_ne_nil (s : String) (t : List Sample)
    (h : parse s = some t) : t ≠ [] := by
  cases hr : parseRows? s with
  | none => rw [parse_none_of_rows s hr] at h; simp at h
  | some rows =>
      rw [parse_eq_of_rows s rows hr] at h
      by_cases hz : (rangeNormalize rows).length = 0
      · rw [if_pos hz] at h; simp at h
      · rw [if_neg hz] at h
        have ht := Option.some.inj h
        subst ht
        exact fun hnil => hz (by simp [hnil])

theorem trimBack_second_to_last (l : List Sample)
    (hlen : 2 ≤ (trimBack l).length) :
    ((trimBack l).getD ((trimBack l).length - 2) (0, 0)).1 ≤ 830 := by
  rw [trimBack] at hlen ⊢
  rcases hm : trimBackAux l.reverse with _ | ⟨d0, _ | ⟨d1, dr⟩⟩
  · rw [hm] at hlen; simp at hlen
  · rw [hm] at hlen; simp at hlen
  · rw [reverse_getD_second]
    exact trimBackAux_second l.reverse d0 d1 dr hm

set_option maxRecDepth 4000000

/-! ## The claims -/

/-- C2: for every parsed row list, the range normaliser applied inside
`parse` computes exactly the spec's two loops: repeatedly discard the first
sample while the list has at least 2 samples and the second sample's
wavelength is below 360 nm, then repeatedly discard the last sample while
the list has at least 2 samples and the second-to-last sample's wavelength
is above 830 nm. -/
theorem C2_normalizer_contract (rows : List Sample) :
    rangeNormalize rows = specDropBack (specDropFront rows) := by
  rw [specDropFront_eq, specDropBack_eq, rangeNormalize]

/-- C9: the range normaliser is the identity on tables whose wavelengths
all lie in [360, 830]; consequently on such tables applying it twice equals
applying it once. -/
theorem C9_normalize_identity (l : List Sample) (h : inBand l) :
    rangeNormalize l = l ∧
      rangeNormalize (rangeNormalize l) = rangeNormalize l := by
  have h1 := rangeNormalize_id_of_inBand l h
  exact ⟨h1, by rw [h1, h1]⟩

theorem C9_normalize_identity_witness :
    inBand [((400 : ℚ), (1 : ℚ))] ∧
      rangeNormalize [((400 : ℚ), (1 : ℚ))] = [((400 : ℚ), (1 : ℚ))] :=
  have h : inBand [((400 : ℚ), (1 : ℚ))] := by with_unfolding_all decide
  ⟨h, (C9_normalize_identity [((400 : ℚ), (1 : ℚ))] h).1⟩

/-- C6: parsing the CSV section text `"0.360,1.5\n0.5,1.6\n0.83,1.7\n"`
yields exactly the wavelengths [360, 500, 830] (micrometers × 1000) with
values [1.5, 1.6, 1.7], and range normalisation discards nothing (the
parsed row list equals the returned table). -/
theorem C6_roundtrip_scaling :
    parse "0.360,1.5\n0.5,1.6\n0.83,1.7\n" =
        some [(360, 3 / 2), (500, 8 / 5), (830, 17 / 10)] ∧
      parseRows? "0.360,1.5\n0.5,1.6\n0.83,1.7\n" =
        some [(360, 3 / 2), (500, 8 / 5), (830, 17 / 10)] := by
  exact ⟨by with_unfolding_all decide, by with_unfolding_all decide⟩

/-- C5 counterexample: on the section text `"abc"` (one non-empty line that
is not a `wavelength,value` pair) `parse` raises an error even though the
input has a non-empty line, so "raises an error if and only if the input
section contains no non-empty lines" is false as stated. -/
theorem C5_counterexample :
    parse "abc" = none ∧ nonEmptyLines "abc" ≠ [] := by
  exact ⟨by with_unfolding_all decide, by with_unfolding_all decide⟩

/-- C5 amended: on inputs whose non-empty lines all parse as
`wavelength,value` rows, `parse` raises an error exactly when the input
section contains no non-empty lines (trimming never empties a non-empty
table). -/
theorem C5_error_iff_no_lines (s : String) (rows : List Sample)
    (h : parseRows? s = some rows) :
    parse s = none ↔ nonEmptyLines s = [] := by
  have hlen : rows.length = (nonEmptyLines s).length :=
    mapM_some_length parseLine? (nonEmptyLines s) rows h
  rw [parse_eq_of_rows s rows h]
  constructor
  · intro hn
    by_cases hz : (rangeNormalize rows).length = 0
    · have hrnil : rangeNormalize rows = [] := List.length_eq_zero.mp hz
      have hrows : rows = [] := by
        by_contra hne
        exact rangeNormalize_ne_nil rows hne hrnil
      rw [hrows] at hlen
      exact List.length_eq_zero.mp hlen.symm
    · rw [if_neg hz] at hn; simp at hn
  · intro he
    have hrows : rows = [] := by
      have h0 : rows.length = 0 := by rw [hlen, he]; rfl
      exact List.length_eq_zero.mp h0
    subst hrows
    rfl

theorem C5_error_iff_no_lines_witness :
    parseRows? "" = some [] ∧ parse "" = none := by
  refine ⟨by with_unfolding_all decide, ?_⟩
  exact (C5_error_iff_no_lines "" [] (by with_unfolding_all decide)).mpr
    (by with_unfolding_all decide)

/-- C8: for both command-line tools, whenever the argument count is not
exactly one positional argument (`len(sys.argv) ≠ 2`), the program prints
its usage message and exits with code -1; the `usageExit` outcome occurs
before the directory walk, so no data file is read or written. -/
theorem C8_usage_exit (argv : List String) (h : argv.length ≠ 2) :
    csvCliStart argv =
        .usageExit (-1) "Please input the path to data files" ∧
      spdCliStart argv =
        .usageExit (-1) "Please input the root path to mitsuba2\x27s source" := by
  rw [csvCliStart, spdCliStart, if_pos h, if_pos h]
  exact ⟨rfl, rfl⟩

theorem C8_usage_exit_witness :
    csvCliStart [] = .usageExit (-1) "Please input the path to data files" :=
  (C8_usage_exit [] (by decide)).1

/-- C3: evaluating the Mitsuba2 pipeline on `copper.eta.spd` = `"400 1.1"`
and `copper.k.spd` = `"400 2.3"`.  `np.loadtxt` (default `ndmin=0`)
squeezes a single-row file to a 1-D array, so the emitted `Array` values
are the flat pairs `[400.0, 1.1]` / `[400.0, 2.3]`, not the nested
one-row lists the schema prescribes. -/
theorem C3_single_row_output :
    processSpd "400 1.1" "400 2.3" =
        some ⟨⟨"SampledSpectrumTexture", NpList.flat [400, 11 / 10]⟩,
              some ⟨"SampledSpectrumTexture", NpList.flat [400, 23 / 10]⟩⟩ ∧
      processSpd "400 1.1" "400 2.3" ≠
        some ⟨⟨"SampledSpectrumTexture", NpList.nested [[400, 11 / 10]]⟩,
              some ⟨"SampledSpectrumTexture",
                NpList.nested [[400, 23 / 10]]⟩⟩ := by
  exact ⟨by with_unfolding_all decide, by with_unfolding_all decide⟩

/-- C10: the K-negligibility test compares signed values, not magnitudes:
whenever the parsed imaginary-index table's values are all strictly below
1e-3 — including arbitrarily large negative values — the emitted JSON
omits the `K` key. -/
theorem C10_signed_negligibility (data : String) (kp : Nat) (j : IorJson)
    (kt : List Sample) (hk : strFind data "wl,k" = some kp)
    (hj : processCSV data = some j)
    (hkt : parse (strSliceFrom data (kp + 4)) = some kt)
    (hlt : ∀ s ∈ kt, s.2 < 1 / 1000) : j.k = none := by
  rw [processCSV_eq_some_k data kp hk] at hj
  cases he : parse (strSlice data (nStartOf data) kp) with
  | none => rw [he] at hj; simp at hj
  | some eta =>
      rw [he, hkt] at hj
      have hall : (kt.all fun s => decide (s.2 < 1 / 1000)) = true := by
        rw [List.all_eq_true]
        intro s hs
        exact decide_eq_true (hlt s hs)
      simp only [Option.bind_eq_bind, Option.some_bind, hall, if_true] at hj
      have hje := Option.some.inj hj
      rw [← hje]

theorem C10_signed_negligibility_witness :
    (⟨sstEntry [((500 : ℚ), (3 : ℚ) / 2)], none⟩ : IorJson).k = none :=
  C10_signed_negligibility "wl,n\n0.5,1.5\nwl,k\n0.5,-5.0\n" 13
    ⟨sstEntry [(500, 3 / 2)], none⟩ [(500, -5)]
    (by with_unfolding_all decide) (by with_unfolding_all decide)
    (by with_unfolding_all decide) (by with_unfolding_all decide)

/-- C4 counterexample: the input `"wl,n\n0.5,1.5\nwl,k\n0.5,-5.0\n"` has a
`wl,k` section parsing to the single row (500 nm, -5.0), whose value has
magnitude 5 ≥ 1e-3, yet the emitted JSON omits the `K` key — refuting
"otherwise the K key is present" under the claim's magnitude reading. -/
theorem C4_counterexample :
    processCSV "wl,n\n0.5,1.5\nwl,k\n0.5,-5.0\n" =
        some ⟨sstEntry [(500, 3 / 2)], none⟩ ∧
      parse (strSliceFrom "wl,n\n0.5,1.5\nwl,k\n0.5,-5.0\n" (13 + 4)) =
        some [(500, -5)] ∧
      ¬ ∀ s ∈ [((500 : ℚ), (-5 : ℚ))], |s.2| < 1 / 1000 := by
  refine ⟨?_, ?_, ?_⟩ <;> with_unfolding_all decide

/-- C4 amended: when `wl,k` is present and the run emits a JSON object,
the `K` key is omitted exactly when all parsed imaginary-index values are
strictly below 1e-3 as signed numbers (negative values of any magnitude
count as negligible); when the `K` section fails to parse (in particular
when it has zero parsed rows), no JSON is emitted at all. -/
theorem C4_k_omission (data : String) (kp : Nat)
    (hk : strFind data "wl,k" = some kp) :
    (∀ j kt, processCSV data = some j →
        parse (strSliceFrom data (kp + 4)) = some kt →
        (j.k = none ↔ ∀ s ∈ kt, s.2 < 1 / 1000)) ∧
      (parse (strSliceFrom data (kp + 4)) = none →
        processCSV data = none) := by
  constructor
  · intro j kt hj hkt
    rw [processCSV_eq_some_k data kp hk] at hj
    cases he : parse (strSlice data (nStartOf data) kp) with
    | none => rw [he] at hj; simp at hj
    | some eta =>
        rw [he, hkt] at hj
        by_cases hall : (kt.all fun s => decide (s.2 < 1 / 1000)) = true
        · simp only [Option.bind_eq_bind, Option.some_bind, hall,
            if_true] at hj
          have hje := Option.some.inj hj
          rw [← hje]
          simp only [true_iff]
          intro s hs
          exact of_decide_eq_true (List.all_eq_true.mp hall s hs)
        · have hkne : kt ≠ [] := parse_some_ne_nil _ kt hkt
          have hfalse : (kt.all fun s => decide (s.2 < 1 / 1000)) = false :=
            Bool.eq_false_iff.mpr hall
          simp only [Option.bind_eq_bind, Option.some_bind, hfalse,
            Bool.false_eq_true, if_false, List.length_pos.mpr hkne,
            if_true] at hj
          have hje := Option.some.inj hj
          rw [← hje]
          constructor
          · intro habs; exact absurd habs (by simp)
          · intro hforall
            exact absurd
              (List.all_eq_true.mpr fun s hs => decide_eq_true (hforall s hs))
              hall
  · intro hnone
    rw [processCSV_eq_some_k data kp hk]
    cases he : parse (strSlice data (nStartOf data) kp) with
    | none => rfl
    | some eta => rw [hnone]; rfl

theorem C4_k_omission_witness :
    ((⟨sstEntry [((500 : ℚ), (3 : ℚ) / 2)],
        some (sstEntry [((500 : ℚ), (23 : ℚ) / 10)])⟩ : IorJson).k = none ↔
      ∀ s ∈ [((500 : ℚ), (23 : ℚ) / 10)], s.2 < 1 / 1000) :=
  (C4_k_omission "wl,n\n0.5,1.5\nwl,k\n0.5,2.3\n" 13
      (by with_unfolding_all decide)).1
    ⟨sstEntry [(500, 3 / 2)], some (sstEntry [(500, 23 / 10)])⟩
    [(500, 23 / 10)]
    (by with_unfolding_all decide) (by with_unfolding_all decide)

/-- C7: with `wl,n` present at offset `n0`, if `wl,k` is absent the
pipeline parses exactly the text from just after `wl,n` to the end and
emits `Eta` with no `K` key; if `wl,k` is present at offset `kp`, the
real-index section is the text from just after `wl,n` to the start of
`wl,k` and the imaginary section the text from just after `wl,k` to the
end, and any emitted object is built from those two parses. -/
theorem C7_section_layout (data : String) (n0 : Nat)
    (hn : strFind data "wl,n" = some n0) :
    (strFind data "wl,k" = none →
        processCSV data =
          (parse (strSliceFrom data (n0 + 4))).map
            (fun t => ⟨sstEntry t, none⟩)) ∧
      (∀ kp j, strFind data "wl,k" = some kp → processCSV data = some j →
        ∃ et kt, parse (strSlice data (n0 + 4) kp) = some et ∧
          parse (strSliceFrom data (kp + 4)) = some kt ∧
          j.eta = sstEntry et ∧
          (j.k = none ∨ j.k = some (sstEntry kt))) := by
  have hns : nStartOf data = n0 + 4 := by rw [nStartOf, hn]
  constructor
  · intro hk
    rw [processCSV_eq_no_k data hk, hns]
    cases hp : parse (strSliceFrom data (n0 + 4)) with
    | none => rfl
    | some t => rfl
  · intro kp j hk hj
    rw [processCSV_eq_some_k data kp hk, hns] at hj
    cases he : parse (strSlice data (n0 + 4) kp) with
    | none => rw [he] at hj; simp at hj
    | some et =>
        cases hke : parse (strSliceFrom data (kp + 4)) with
        | none => rw [he, hke] at hj; simp at hj
        | some kt =>
            rw [he, hke] at hj
            refine ⟨et, kt, rfl, rfl, ?_⟩
            by_cases hall : (kt.all fun s => decide (s.2 < 1 / 1000)) = true
            · simp only [Option.bind_eq_bind, Option.some_bind, hall,
                if_true] at hj
              have hje := Option.some.inj hj
              rw [← hje]
              exact ⟨rfl, Or.inl rfl⟩
            · have hkne : kt ≠ [] := parse_some_ne_nil _ kt hke
              have hfalse : (kt.all fun s => decide (s.2 < 1 / 1000)) = false :=
                Bool.eq_false_iff.mpr hall
              simp only [Option.bind_eq_bind, Option.some_bind, hfalse,
                Bool.false_eq_true, if_false, List.length_pos.mpr hkne,
                if_true] at hj
              have hje := Option.some.inj hj
              rw [← hje]
              exact ⟨rfl, Or.inr rfl⟩

theorem C7_section_layout_witness :
    processCSV "wl,n\n0.5,1.5\n" =
      some ⟨sstEntry [((500 : ℚ), (3 : ℚ) / 2)], none⟩ := by
  have h := (C7_section_layout "wl,n\n0.5,1.5\n" 0
      (by with_unfolding_all decide)).1 (by with_unfolding_all decide)
  rw [h]
  with_unfolding_all decide

/-- C1: for every CSV section whose parsed rows are sorted by ascending
wavelength, a table returned by `parse` is non-empty, and every sample
except possibly the first and the last has wavelength within
[360, 830] nm (at most one sample on each end may lie outside). -/
theorem C1_emitted_in_band (s : String) (rows t : List Sample)
    (hrows : parseRows? s = some rows) (hsort : sortedByWl rows)
    (hp : parse s = some t) :
    t ≠ [] ∧ ∀ (i : Nat) (hi : i < t.length), i ≠ 0 → i + 1 ≠ t.length →
      360 ≤ (t.get ⟨i, hi⟩).1 ∧ (t.get ⟨i, hi⟩).1 ≤ 830 := by
  refine ⟨parse_some_ne_nil s t hp, ?_⟩
  rw [parse_eq_of_rows s rows hrows] at hp
  by_cases hz : (rangeNormalize rows).length = 0
  · rw [if_pos hz] at hp; exact absurd hp (by simp)
  rw [if_neg hz] at hp
  have ht : rangeNormalize rows = t := Option.some.inj hp
  intro i hi hi0 hilast
  have hst : t.Pairwise (fun a b : Sample => a.1 ≤ b.1) := by
    rw [← ht]
    exact List.Pairwise.sublist (rangeNormalize_sublist rows) hsort
  have hip1 : i + 1 < t.length := by omega
  have h1lt : 1 < t.length := by omega
  have hlast : t.length - 2 < t.length := by omega
  have hlowD : 360 ≤ (t.getD 1 (0, 0)).1 := by
    obtain ⟨u, hu⟩ := trimBack_eq_take (trimFront rows)
    have htb : trimBack (trimFront rows) = t := ht
    rw [htb] at hu
    rcases t with _ | ⟨c0, _ | ⟨c1, cr⟩⟩
    · simp at h1lt
    · simp at h1lt
    · have hfront : trimFront rows = c0 :: c1 :: (cr ++ u) := by
        rw [hu]
        simp
      have h360 := trimFront_second rows c0 c1 (cr ++ u) hfront
      simpa using h360
  have hlow : 360 ≤ t[1].1 := by
    rwa [List.getD_eq_getElem?_getD, List.getElem?_eq_getElem h1lt,
      Option.getD_some] at hlowD
  have hhigh : t[t.length - 2].1 ≤ 830 := by
    have h2 : 2 ≤ (trimBack (trimFront rows)).length := by
      rw [show trimBack (trimFront rows) = t from ht]; omega
    have hgd := trimBack_second_to_last (trimFront rows) h2
    rw [show trimBack (trimFront rows) = t from ht] at hgd
    rwa [List.getD_eq_getElem?_getD, List.getElem?_eq_getElem hlast,
      Option.getD_some] at hgd
  simp only [List.get_eq_getElem]
  constructor
  · rcases Nat.lt_or_ge 1 i with h1i | h1i
    · exact le_trans hlow
        (List.pairwise_iff_getElem.mp hst 1 i h1lt hi h1i)
    · have hi1 : i = 1 := by omega
      subst hi1
      exact hlow
  · rcases Nat.lt_or_ge i (t.length - 2) with h2i | h2i
    · exact le_trans
        (List.pairwise_iff_getElem.mp hst i (t.length - 2) hi hlast h2i)
        hhigh
    · have hieq : i = t.length - 2 := by omega
      subst hieq
      exact hhigh

theorem C1_emitted_in_band_witness :
    ([(300, 1), (400, 11 / 10), (500, 6 / 5), (900, 13 / 10)] :
        List Sample) ≠ [] ∧
      (360 ≤ (([(300, 1), (400, 11 / 10), (500, 6 / 5), (900, 13 / 10)] :
            List Sample).get ⟨1, by decide⟩).1 ∧
        (([(300, 1), (400, 11 / 10), (500, 6 / 5), (900, 13 / 10)] :
            List Sample).get ⟨1, by decide⟩).1 ≤ 830) := by
  have h := C1_emitted_in_band "0.3,1.0\n0.4,1.1\n0.5,1.2\n0.9,1.3\n"
    [(300, 1), (400, 11 / 10), (500, 6 / 5), (900, 13 / 10)]
    [(300, 1), (400, 11 / 10), (500, 6 / 5), (900, 13 / 10)]
    (by with_unfolding_all decide) (by with_unfolding_all decide)
    (by with_unfolding_all decide)
  exact ⟨h.1, h.2 1 (by decide) (by decide) (by decide)⟩

end Piper0
